import Mathlib

/-!
# Observatum UKSI search core — verification development

Shallow embedding of the species-search core of the Observatum repository
(`src/database/handlers/uksi_search.py`, `uksi_ranker.py`, `uksi_handler.py`)
together with proofs of its specified properties.

Modelling conventions:
* The SQLite reference database (`taxa`, `common_names`, `synonyms`,
  `hierarchy` tables) is a record of association lists; `tvk` is the
  `TEXT PRIMARY KEY` of `taxa` (uksi_extractor.py).
* `expr LIKE '%w%' COLLATE NOCASE` is modelled as case-insensitive (ASCII
  folding, exactly SQLite's NOCASE) substring containment of the literal
  text `w`; SQLite pattern metacharacters occurring inside a user word are
  not modelled, the spec and the claims treat words as literal text.
* Python's in-place, stable `list.sort` and the deterministic SQL
  `ORDER BY` are modelled with the stable `List.insertionSort`.
* Queries against the observations database may fail (the Python code
  catches every exception); they are modelled as `Except` values.
-/

namespace Observatum

/-! ## Character and string helpers -/

/-- ASCII lower-casing of a string, character list view.  SQLite's `NOCASE`
collation folds exactly the ASCII range, which is what `Char.toLower`
implements. -/
def lowerChars (s : String) : List Char :=
  s.toList.map Char.toLower

/-- `startsList hay pat`: does `hay` begin with `pat`? -/
def startsList : List Char → List Char → Bool
  | _, [] => true
  | [], _ :: _ => false
  | c :: cs, p :: ps => c == p && startsList cs ps

/-- `occursIn pat hay`: does `pat` occur as a contiguous run inside `hay`? -/
def occursIn (pat : List Char) : List Char → Bool
  | [] => startsList [] pat
  | c :: rest => startsList (c :: rest) pat || occursIn pat rest

/-- Model of `hay LIKE '%' || pat || '%' COLLATE NOCASE` for a literal
pattern `pat`: case-insensitive substring containment. -/
def likeContains (hay pat : String) : Bool :=
  occursIn (lowerChars pat) (lowerChars hay)

/-- Model of `hay LIKE pat || '%' COLLATE NOCASE` for a literal `pat`:
case-insensitive prefix test. -/
def likeStarts (hay pat : String) : Bool :=
  startsList (lowerChars hay) (lowerChars pat)

/-- Code-point lexicographic `≤` on character lists: the comparison Python
uses on `str` and SQLite's BINARY collation uses on (UTF-8) text — UTF-8
byte order coincides with code-point order. -/
def charListLe : List Char → List Char → Bool
  | [], _ => true
  | _ :: _, [] => false
  | c :: cs, d :: ds => if c = d then charListLe cs ds else decide (c < d)

/-- Code-point lexicographic `≤` on strings. -/
def stringLe (a b : String) : Bool :=
  charListLe a.toList b.toList

/-- The separator set of Python `str.split()` / `str.isspace` (CPython's
Unicode whitespace): the ASCII control whitespace `\t \n \v \f \r`, the
space, the C0 information separators `1C`–`1F`, NEL `85`, NBSP `A0`,
OGHAM SPACE MARK `1680`, the space separators `2000`–`200A`, LINE and
PARAGRAPH SEPARATOR `2028`/`2029`, NARROW NO-BREAK SPACE `202F`, MEDIUM
MATHEMATICAL SPACE `205F` and IDEOGRAPHIC SPACE `3000`. -/
def pyIsSpace (c : Char) : Bool :=
  (0x09 ≤ c.toNat && c.toNat ≤ 0x0d) || c.toNat == 0x20 ||
    (0x1c ≤ c.toNat && c.toNat ≤ 0x1f) || c.toNat == 0x85 || c.toNat == 0xa0 ||
    c.toNat == 0x1680 || (0x2000 ≤ c.toNat && c.toNat ≤ 0x200a) ||
    c.toNat == 0x2028 || c.toNat == 0x2029 || c.toNat == 0x202f ||
    c.toNat == 0x205f || c.toNat == 0x3000

/-- Helper for `splitWords`: scan the character list, `cur` holds the
(reversed) word being accumulated. -/
def splitWordsAux : List Char → List Char → List String
  | [], [] => []
  | [], cur => [String.mk cur.reverse]
  | c :: cs, cur =>
    if pyIsSpace c then
      match cur with
      | [] => splitWordsAux cs []
      | _ => String.mk cur.reverse :: splitWordsAux cs []
    else splitWordsAux cs (c :: cur)

/-- Model of Python `search_term.strip().split()`: split on runs of
Python whitespace, dropping empty pieces (uksi_search.py line 108).  A
term made only of whitespace yields `[]`. -/
def splitWords (s : String) : List String :=
  splitWordsAux s.toList []

/-- Python truthiness of an optional string (`while current_tvk`,
`if parent_tvk`): `None` and the empty string are falsy. -/
def pyTruthy : Option String → Bool
  | none => false
  | some s => s ≠ ""

/-! ## Data model (schema from uksi_extractor.py) -/

/-- One row of the `taxa` table: `tvk TEXT PRIMARY KEY`,
`scientific_name`, `rank`. -/
structure Taxon where
  tvk : String
  scientificName : String
  rank : String
deriving DecidableEq, Repr

/-- The UKSI reference database.  `commonNames`, `synonyms` and
`hierarchy` are many-to-many / parent tables keyed by `tvk`
(pairs `(tvk, common_name)`, `(tvk, synonym)`, `(tvk, parent_tvk)`). -/
structure UKSIDb where
  taxa : List Taxon
  commonNames : List (String × String)
  synonyms : List (String × String)
  hierarchy : List (String × String)
deriving DecidableEq, Repr

/-- All common names attached to a `tvk`
(`SELECT common_name FROM common_names WHERE tvk = ?`). -/
def commonNamesOf (db : UKSIDb) (tvk : String) : List String :=
  (db.commonNames.filter (fun p => p.1 == tvk)).map (·.2)

/-- `UKSIHandler.get_synonyms`:
`SELECT synonym FROM synonyms WHERE tvk = ?`. -/
def get_synonyms (db : UKSIDb) (tvk : String) : List String :=
  (db.synonyms.filter (fun p => p.1 == tvk)).map (·.2)

/-- The unit returned by Searcher/Ranker (`SpeciesSummary` of the spec):
the dictionaries built in `UKSISearch.search`. -/
structure SpeciesSummary where
  tvk : String
  scientificName : String
  commonNames : List String
  rank : String
deriving DecidableEq, Repr

/-! ## Searcher (`uksi_search.py`) -/

/-- WHERE clause of `_build_fuzzy_query` for one joined row, as a predicate
on a taxon.  The `LEFT JOIN common_names` yields one row per common name of
the taxon — or a single row with `NULL` common name when it has none, in
which case `cn.common_name LIKE ?` is never true.  A taxon appears in
`ranked_results` iff some row passes
`AND_w (t.scientific_name LIKE '%w%' OR cn.common_name LIKE '%w%')`. -/
def matchCandidate (db : UKSIDb) (words : List String) (t : Taxon) : Bool :=
  match commonNamesOf db t.tvk with
  | [] => words.all (fun w => likeContains t.scientificName w)
  | cns => cns.any (fun cn =>
      words.all (fun w => likeContains t.scientificName w || likeContains cn w))

/-- The match candidates of a search term: the distinct taxa reaching
`ranked_results`, before deduplication and before the limit.  This is the
result set of the query, which only exists when the term splits into at
least one word: for a term with zero words `_build_fuzzy_query` renders an
empty `WHERE` clause and `cursor.execute` raises instead of producing
candidates — that error path is modelled by `searchExec`. -/
def candidatesOf (db : UKSIDb) (term : String) : List Taxon :=
  db.taxa.filter (matchCandidate db (splitWords term))

/-- The `CASE WHEN` dedup tier of `_build_fuzzy_query` (lines 135-139):
hybrids (`'% x %'`) are 3, ranks containing Subspecies/Variety/Form are 2,
everything else 1.  SQLite `LIKE` is NOCASE by default. -/
def dedupTier (t : Taxon) : Nat :=
  if likeContains t.scientificName " x " then 3
  else if likeContains t.rank "Subspecies" || likeContains t.rank "Variety"
          || likeContains t.rank "Form" then 2
  else 1

/-- `ROW_NUMBER ... ORDER BY` key of the dedup window:
`(tier, LENGTH(scientific_name), tvk)`. -/
def dedupKey (t : Taxon) : Nat × Nat × String :=
  (dedupTier t, t.scientificName.length, t.tvk)

/-- Lexicographic `≤` on a `(Nat, Nat, String)` sort key, the order used by
the SQL `ORDER BY key1, key2, key3` clauses. -/
def tripleLe (p q : Nat × Nat × String) : Bool :=
  decide (p.1 < q.1) ||
    (p.1 == q.1 && (decide (p.2.1 < q.2.1) ||
      (p.2.1 == q.2.1 && stringLe p.2.2 q.2.2)))

/-- The dedup tie-break: `t` sorts no later than `u` in the
`PARTITION BY scientific_name` window. -/
def dedupKeyLe (t u : Taxon) : Bool :=
  tripleLe (dedupKey t) (dedupKey u)

/-- Deduplication by scientific name (`WHERE rn = 1`): keep a candidate iff
no other candidate with the same scientific name sorts strictly before it
in the window order. -/
def dedupByName (cands : List Taxon) : List Taxon :=
  cands.filter (fun t =>
    cands.all (fun u => (u.scientificName != t.scientificName) || dedupKeyLe t u))

/-- Outer `ORDER BY` group of the final query: names starting with the
search term (case-insensitive) first. -/
def startsGroup (term : String) (t : Taxon) : Nat :=
  if likeStarts t.scientificName term then 1 else 2

/-- Outer `ORDER BY` key:
`(starts-with group, LENGTH(scientific_name), scientific_name)`. -/
def orderKey (term : String) (t : Taxon) : Nat × Nat × String :=
  (startsGroup term t, t.scientificName.length, t.scientificName)

/-- Result assembly of `UKSISearch.search`: one dictionary per row, common
names filled by the bulk lookup `_fetch_common_names_bulk`. -/
def toSummary (db : UKSIDb) (t : Taxon) : SpeciesSummary :=
  ⟨t.tvk, t.scientificName, commonNamesOf db t.tvk, t.rank⟩

/-- `UKSISearch.search`: fuzzy candidates, dedup by scientific name,
final ordering, `LIMIT`, then result assembly.  This is the result set of
a successful execution; `searchExec` additionally models the
malformed-query error of a term with zero words. -/
def search (db : UKSIDb) (term : String) (limit : Nat) : List SpeciesSummary :=
  let deduped := dedupByName (candidatesOf db term)
  let ordered := deduped.insertionSort
    (fun t u => tripleLe (orderKey term t) (orderKey term u) = true)
  (ordered.take limit).map (toSummary db)

/-- Execution of `UKSISearch.search` including its error path: when the
term splits into zero words (whitespace-only or empty), the generated SQL
has an empty `WHERE` clause (`" AND ".join([])`) and `cursor.execute`
raises `sqlite3.OperationalError`; otherwise the query runs and yields the
assembled result set. -/
def searchExec (db : UKSIDb) (term : String) (limit : Nat) :
    Except String (List SpeciesSummary) :=
  if splitWords term = [] then Except.error "sqlite3.OperationalError"
  else Except.ok (search db term limit)

/-! ## Ranker (`uksi_ranker.py`) -/

/-- Connection to the observations database, seen through the only two
queries the Ranker issues.  Each query either yields the set (as a list) of
taxon keys or fails with an exception, which the Python code catches. -/
structure HistoryConn where
  recentQuery : Except String (List String)
  allQuery : Except String (List String)
deriving Repr

/-- `UKSIRanker._get_recent_species`: TVKs recorded in the last 30 days;
on any exception, log a warning and return the empty set. -/
def get_recent_species (conn : HistoryConn) : List String :=
  match conn.recentQuery with
  | Except.ok tvks => tvks
  | Except.error _ => []

/-- `UKSIRanker._get_all_recorded_species`: TVKs ever recorded;
on any exception, log a warning and return the empty set. -/
def get_all_recorded_species (conn : HistoryConn) : List String :=
  match conn.allQuery with
  | Except.ok tvks => tvks
  | Except.error _ => []

/-- `UKSIRanker._assign_priorities`: 1 if recorded in the last 30 days,
2 if ever recorded, 3 otherwise. -/
def priorityOf (recent allRec : List String) (s : SpeciesSummary) : Nat :=
  if recent.contains s.tvk then 1
  else if allRec.contains s.tvk then 2
  else 3

/-- Lexicographic `≤` on a `(Nat, String)` sort key, the order of Python
tuple comparison used by `results.sort(key=...)`. -/
def pairLe (p q : Nat × String) : Bool :=
  decide (p.1 < q.1) || (p.1 == q.1 && stringLe p.2 q.2)

/-- Sort key of `rank_results`:
`(x['_priority'], x['scientific_name'])`. -/
def rankKey (recent allRec : List String) (s : SpeciesSummary) : Nat × String :=
  (priorityOf recent allRec s, s.scientificName)

/-- `UKSIRanker.rank_results`: fetch the two history sets, assign the
transient `_priority` to every entry, stable-sort by
`(_priority, scientific_name)`, drop `_priority`, return the list. -/
def rank_results (results : List SpeciesSummary) (conn : HistoryConn) :
    List SpeciesSummary :=
  let recent := get_recent_species conn
  let allRec := get_all_recorded_species conn
  results.insertionSort
    (fun a b => pairLe (rankKey recent allRec a) (rankKey recent allRec b) = true)

/-- `rank_results` sorts the caller's list in place (`results.sort(...)`)
and returns the very same list object.  We model the observable effect of a
call as the pair (returned list, state of the caller's list after the
call): Python's aliasing makes the two components equal. -/
def rankResultsCall (results : List SpeciesSummary) (conn : HistoryConn) :
    List SpeciesSummary × List SpeciesSummary :=
  (rank_results results conn, rank_results results conn)

/-! ## Handler (`uksi_handler.py`) -/

/-- `UKSIHandler.search_species`: guard short terms (`not search_term or
len(search_term) < 2`, which is exactly `length < 2`), oversample the
searcher threefold, rank when an observations connection is supplied
(`if obs_db_conn:`), truncate to `limit`. -/
def search_species (db : UKSIDb) (term : String) (limit : Nat)
    (obs : Option HistoryConn) : List SpeciesSummary :=
  if term.length < 2 then []
  else
    let results := search db term (limit * 3)
    let ranked :=
      match obs with
      | some conn => rank_results results conn
      | none => results
    ranked.take limit

/-! ## Hierarchy resolver (`UKSIHandler._build_taxonomy`) -/

/-- The six taxonomy levels recorded by the walk (line 223). -/
def sixRanks : List String := ["kingdom", "phylum", "class", "order", "family", "genus"]

/-- `row['rank'].lower() if row['rank'] else ''` (ranks are ASCII). -/
def lowerStr (s : String) : String :=
  String.mk (lowerChars s)

/-- The row fetched per iteration:
`SELECT t.scientific_name, t.rank, h.parent_tvk FROM taxa t LEFT JOIN
hierarchy h ON t.tvk = h.tvk WHERE t.tvk = ?` (first row, as `fetchone`).
`none` when the tvk is not in `taxa`; the parent is `none` when there is
no hierarchy row (SQL `NULL`). -/
def taxonRow (db : UKSIDb) (k : String) : Option (String × String × Option String) :=
  (db.taxa.find? (fun t => t.tvk == k)).map (fun t =>
    (t.scientificName, t.rank, (db.hierarchy.find? (fun p => p.1 == k)).map (·.2)))

/-- The state built by `_build_taxonomy`: the Python `taxonomy` dict, with
the rank levels (insertion-ordered association list) and the separately
keyed `parent_tvk` entry. -/
structure TaxonomyAcc where
  levels : List (String × String)
  parentTvk : Option String
deriving DecidableEq, Repr

/-- Dictionary read `taxonomy.get(rank)`; `rank in taxonomy` is
`lookupLevel … ≠ none`. -/
def lookupLevel (levels : List (String × String)) (r : String) : Option String :=
  (levels.find? (fun p => p.1 == r)).map (·.2)

/-- One recording step of the walk:
`if rank in ['kingdom', …] and rank not in taxonomy: taxonomy[rank] = sci`
(first occurrence wins). -/
def recordLevel (levels : List (String × String)) (rlow sci : String) :
    List (String × String) :=
  if rlow ∈ sixRanks ∧ lookupLevel levels rlow = none then levels ++ [(rlow, sci)]
  else levels

/-- The `while current_tvk and depth < max_depth` loop of
`_build_taxonomy`, with `fuel = max_depth - depth` making the depth cap
structural.  Each iteration: cycle guard on `visited`, fetch the row
(`break` when absent), record `rank → scientific_name` on first occurrence
for the six levels, record `parent_tvk` at depth 0 (`break` when the
starting taxon has no truthy parent), then move to the parent. -/
def buildTaxonomyLoop (db : UKSIDb) :
    Nat → Option String → List String → Nat → TaxonomyAcc → TaxonomyAcc
  | 0, _, _, _, acc => acc
  | _ + 1, none, _, _, acc => acc
  | fuel + 1, some k, visited, depth, acc =>
    if k = "" then acc
    else if k ∈ visited then acc
    else
      match taxonRow db k with
      | none => acc
      | some (sci, rank, parent) =>
        let acc1 := { acc with levels := recordLevel acc.levels (lowerStr rank) sci }
        if depth = 0 then
          if pyTruthy parent then
            buildTaxonomyLoop db fuel parent (k :: visited) (depth + 1)
              { acc1 with parentTvk := parent }
          else acc1
        else buildTaxonomyLoop db fuel parent (k :: visited) (depth + 1) acc1

/-- `UKSIHandler._build_taxonomy`: start the walk at `tvk` with
`visited = {}`, `max_depth = 20`, `depth = 0`, empty taxonomy. -/
def build_taxonomy (db : UKSIDb) (tvk : String) : TaxonomyAcc :=
  buildTaxonomyLoop db 20 (some tvk) [] 0 ⟨[], none⟩

/-- Number of loop iterations the walk performs (each iteration of the
Python `while` body counts one, including the iteration that `break`s
after recording the starting taxon). -/
def buildTaxonomySteps (db : UKSIDb) :
    Nat → Option String → List String → Nat → Nat
  | 0, _, _, _ => 0
  | _ + 1, none, _, _ => 0
  | fuel + 1, some k, visited, depth =>
    if k = "" then 0
    else if k ∈ visited then 0
    else
      match taxonRow db k with
      | none => 1
      | some (_, _, parent) =>
        if depth = 0 then
          if pyTruthy parent then
            1 + buildTaxonomySteps db fuel parent (k :: visited) (depth + 1)
          else 1
        else 1 + buildTaxonomySteps db fuel parent (k :: visited) (depth + 1)

/-- The `(lowered rank, scientific_name)` pairs of the taxa the walk
visits and fetches, in walk order (nearest first). -/
def taxVisits (db : UKSIDb) :
    Nat → Option String → List String → Nat → List (String × String)
  | 0, _, _, _ => []
  | _ + 1, none, _, _ => []
  | fuel + 1, some k, visited, depth =>
    if k = "" then []
    else if k ∈ visited then []
    else
      match taxonRow db k with
      | none => []
      | some (sci, rank, parent) =>
        (lowerStr rank, sci) ::
          (if depth = 0 then
            if pyTruthy parent then
              taxVisits db fuel parent (k :: visited) (depth + 1)
            else []
          else taxVisits db fuel parent (k :: visited) (depth + 1))

/-! ## Order lemmas for the sort keys -/

theorem charListLe_total : ∀ x y : List Char, charListLe x y = true ∨ charListLe y x = true := by
  intro x
  induction x with
  | nil => intro y; left; rfl
  | cons c cs ih =>
    intro y
    cases y with
    | nil => right; rfl
    | cons d ds =>
      by_cases h : c = d
      · subst h
        simp only [charListLe, if_pos rfl]
        exact ih ds
      · rcases lt_or_gt_of_ne h with hlt | hgt
        · left; simp [charListLe, h, hlt]
        · right; simp [charListLe, Ne.symm h, hgt]

theorem charListLe_trans :
    ∀ x y z : List Char, charListLe x y = true → charListLe y z = true →
      charListLe x z = true := by
  intro x
  induction x with
  | nil => intro y z _ _; rfl
  | cons c cs ih =>
    intro y z h1 h2
    cases y with
    | nil => simp [charListLe] at h1
    | cons d ds =>
      cases z with
      | nil => simp [charListLe] at h2
      | cons e es =>
        by_cases hcd : c = d
        · subst hcd
          simp only [charListLe, if_pos rfl] at h1
          by_cases hce : c = e
          · subst hce
            simp only [charListLe, if_pos rfl] at h2 ⊢
            exact ih ds es h1 h2
          · simp only [charListLe, if_neg hce] at h2 ⊢
            exact h2
        · simp only [charListLe, if_neg hcd, decide_eq_true_eq] at h1
          by_cases hde : d = e
          · have hce : c ≠ e := fun h => hcd (h.trans hde.symm)
            simp only [charListLe, if_neg hce, decide_eq_true_eq]
            exact hde ▸ h1
          · simp only [charListLe, if_neg hde, decide_eq_true_eq] at h2
            have hce : c < e := lt_trans h1 h2
            simp only [charListLe, if_neg (ne_of_lt hce), decide_eq_true_eq]
            exact hce

theorem charListLe_antisymm :
    ∀ x y : List Char, charListLe x y = true → charListLe y x = true → x = y := by
  intro x
  induction x with
  | nil =>
    intro y _ h2
    cases y with
    | nil => rfl
    | cons d ds => simp [charListLe] at h2
  | cons c cs ih =>
    intro y h1 h2
    cases y with
    | nil => simp [charListLe] at h1
    | cons d ds =>
      by_cases hcd : c = d
      · subst hcd
        simp only [charListLe, if_pos rfl] at h1 h2
        rw [ih ds h1 h2]
      · simp only [charListLe, if_neg hcd, decide_eq_true_eq] at h1
        simp only [charListLe, if_neg (Ne.symm hcd), decide_eq_true_eq] at h2
        exact absurd h2 (lt_asymm h1)

theorem stringLe_total (a b : String) : stringLe a b = true ∨ stringLe b a = true :=
  charListLe_total a.toList b.toList

theorem stringLe_refl (a : String) : stringLe a a = true :=
  (charListLe_total a.toList a.toList).elim id id

theorem stringLe_trans {a b c : String} (h1 : stringLe a b = true)
    (h2 : stringLe b c = true) : stringLe a c = true :=
  charListLe_trans a.toList b.toList c.toList h1 h2

theorem stringLe_antisymm {a b : String} (h1 : stringLe a b = true)
    (h2 : stringLe b a = true) : a = b :=
  String.toList_inj.mp (charListLe_antisymm a.toList b.toList h1 h2)

theorem tripleLe_total (p q : Nat × Nat × String) :
    tripleLe p q = true ∨ tripleLe q p = true := by
  obtain ⟨a1, b1, c1⟩ := p
  obtain ⟨a2, b2, c2⟩ := q
  simp only [tripleLe, Bool.or_eq_true, Bool.and_eq_true, decide_eq_true_eq, beq_iff_eq]
  rcases Nat.lt_trichotomy a1 a2 with h | h | h
  · exact Or.inl (Or.inl h)
  · subst h
    rcases Nat.lt_trichotomy b1 b2 with h' | h' | h'
    · exact Or.inl (Or.inr ⟨rfl, Or.inl h'⟩)
    · subst h'
      rcases stringLe_total c1 c2 with hs | hs
      · exact Or.inl (Or.inr ⟨rfl, Or.inr ⟨rfl, hs⟩⟩)
      · exact Or.inr (Or.inr ⟨rfl, Or.inr ⟨rfl, hs⟩⟩)
    · exact Or.inr (Or.inr ⟨rfl, Or.inl h'⟩)
  · exact Or.inr (Or.inl h)

theorem tripleLe_trans {p q r : Nat × Nat × String} (h1 : tripleLe p q = true)
    (h2 : tripleLe q r = true) : tripleLe p r = true := by
  obtain ⟨a1, b1, c1⟩ := p
  obtain ⟨a2, b2, c2⟩ := q
  obtain ⟨a3, b3, c3⟩ := r
  simp only [tripleLe, Bool.or_eq_true, Bool.and_eq_true, decide_eq_true_eq,
    beq_iff_eq] at h1 h2 ⊢
  rcases h1 with h1a | ⟨h1a, h1b⟩
  · rcases h2 with h2a | ⟨h2a, _⟩
    · exact Or.inl (by omega)
    · exact Or.inl (by omega)
  · rcases h2 with h2a | ⟨h2a, h2b⟩
    · exact Or.inl (by omega)
    · refine Or.inr ⟨by omega, ?_⟩
      rcases h1b with h1b | ⟨h1b, h1c⟩
      · rcases h2b with h2b | ⟨h2b, _⟩
        · exact Or.inl (by omega)
        · exact Or.inl (by omega)
      · rcases h2b with h2b | ⟨h2b, h2c⟩
        · exact Or.inl (by omega)
        · exact Or.inr ⟨by omega, stringLe_trans h1c h2c⟩

theorem tripleLe_antisymm {p q : Nat × Nat × String} (h1 : tripleLe p q = true)
    (h2 : tripleLe q p = true) : p = q := by
  obtain ⟨a1, b1, c1⟩ := p
  obtain ⟨a2, b2, c2⟩ := q
  simp only [tripleLe, Bool.or_eq_true, Bool.and_eq_true, decide_eq_true_eq,
    beq_iff_eq] at h1 h2
  simp only [Prod.mk.injEq]
  rcases h1 with h1a | ⟨h1a, h1b⟩
  · rcases h2 with h2a | ⟨h2a, _⟩ <;> omega
  · rcases h2 with h2a | ⟨h2a, h2b⟩
    · omega
    · refine ⟨by omega, ?_⟩
      rcases h1b with h1b | ⟨h1b, h1c⟩
      · rcases h2b with h2b | ⟨h2b, _⟩ <;> omega
      · rcases h2b with h2b | ⟨h2b, h2c⟩
        · omega
        · exact ⟨by omega, stringLe_antisymm h1c h2c⟩

theorem pairLe_total (p q : Nat × String) : pairLe p q = true ∨ pairLe q p = true := by
  obtain ⟨a1, c1⟩ := p
  obtain ⟨a2, c2⟩ := q
  simp only [pairLe, Bool.or_eq_true, Bool.and_eq_true, decide_eq_true_eq, beq_iff_eq]
  rcases Nat.lt_trichotomy a1 a2 with h | h | h
  · exact Or.inl (Or.inl h)
  · subst h
    rcases stringLe_total c1 c2 with hs | hs
    · exact Or.inl (Or.inr ⟨rfl, hs⟩)
    · exact Or.inr (Or.inr ⟨rfl, hs⟩)
  · exact Or.inr (Or.inl h)

theorem pairLe_trans {p q r : Nat × String} (h1 : pairLe p q = true)
    (h2 : pairLe q r = true) : pairLe p r = true := by
  obtain ⟨a1, c1⟩ := p
  obtain ⟨a2, c2⟩ := q
  obtain ⟨a3, c3⟩ := r
  simp only [pairLe, Bool.or_eq_true, Bool.and_eq_true, decide_eq_true_eq,
    beq_iff_eq] at h1 h2 ⊢
  rcases h1 with h1a | ⟨h1a, h1c⟩
  · rcases h2 with h2a | ⟨h2a, _⟩ <;> exact Or.inl (by omega)
  · rcases h2 with h2a | ⟨h2a, h2c⟩
    · exact Or.inl (by omega)
    · exact Or.inr ⟨by omega, stringLe_trans h1c h2c⟩

theorem pairLe_iff (p q : Nat × String) :
    pairLe p q = true ↔ (p.1 < q.1 ∨ (p.1 = q.1 ∧ stringLe p.2 q.2 = true)) := by
  simp [pairLe, Bool.or_eq_true, Bool.and_eq_true, decide_eq_true_eq, beq_iff_eq]

theorem tripleLe_iff (p q : Nat × Nat × String) :
    tripleLe p q = true ↔
      (p.1 < q.1 ∨ (p.1 = q.1 ∧ (p.2.1 < q.2.1 ∨
        (p.2.1 = q.2.1 ∧ stringLe p.2.2 q.2.2 = true)))) := by
  simp [tripleLe, Bool.or_eq_true, Bool.and_eq_true, decide_eq_true_eq, beq_iff_eq]

/-- A nonempty list with a total, transitive comparison has a least
element under that comparison. -/
theorem exists_min_of_ne_nil {α : Type} (le : α → α → Bool)
    (total : ∀ a b, le a b = true ∨ le b a = true)
    (htrans : ∀ a b c, le a b = true → le b c = true → le a c = true) :
    ∀ l : List α, l ≠ [] → ∃ m, m ∈ l ∧ ∀ b ∈ l, le m b = true := by
  intro l
  induction l with
  | nil => intro h; exact absurd rfl h
  | cons x xs ih =>
    intro _
    by_cases hxs : xs = []
    · subst hxs
      refine ⟨x, List.mem_singleton.mpr rfl, ?_⟩
      intro b hb
      rw [List.mem_singleton.mp hb]
      exact (total x x).elim id id
    · obtain ⟨m, hm, hmin⟩ := ih hxs
      rcases total x m with h | h
      · refine ⟨x, List.mem_cons_self x xs, ?_⟩
        intro b hb
        rcases List.mem_cons.mp hb with rfl | hb'
        · exact (total b b).elim id id
        · exact htrans x m b h (hmin b hb')
      · refine ⟨m, List.mem_cons_of_mem x hm, ?_⟩
        intro b hb
        rcases List.mem_cons.mp hb with rfl | hb'
        · exact h
        · exact hmin b hb'

/-! ## Ranker theorems -/

/-- `rank_results` unfolded to its sort. -/
theorem rank_results_eq (results : List SpeciesSummary) (conn : HistoryConn) :
    rank_results results conn = results.insertionSort (fun a b =>
      pairLe (rankKey (get_recent_species conn) (get_all_recorded_species conn) a)
        (rankKey (get_recent_species conn) (get_all_recorded_species conn) b) = true) :=
  rfl

/-- Core behaviour of `rank_results`: it permutes its input and sorts it
by ascending priority tier, breaking ties by ascending case-sensitive
scientific name, so the priority values are nondecreasing along the
output. -/
theorem rank_results_spec (results : List SpeciesSummary) (conn : HistoryConn) :
    (rank_results results conn).Perm results ∧
    (rank_results results conn).Pairwise (fun a b =>
      priorityOf (get_recent_species conn) (get_all_recorded_species conn) a <
          priorityOf (get_recent_species conn) (get_all_recorded_species conn) b ∨
        (priorityOf (get_recent_species conn) (get_all_recorded_species conn) a =
            priorityOf (get_recent_species conn) (get_all_recorded_species conn) b ∧
          stringLe a.scientificName b.scientificName = true)) ∧
    (rank_results results conn).Pairwise (fun a b =>
      priorityOf (get_recent_species conn) (get_all_recorded_species conn) a ≤
        priorityOf (get_recent_species conn) (get_all_recorded_species conn) b) := by
  have hperm : (rank_results results conn).Perm results := by
    rw [rank_results_eq]
    exact List.perm_insertionSort _ results
  have hsorted : (rank_results results conn).Pairwise (fun a b =>
      pairLe (rankKey (get_recent_species conn) (get_all_recorded_species conn) a)
        (rankKey (get_recent_species conn) (get_all_recorded_species conn) b) = true) := by
    rw [rank_results_eq]
    haveI : IsTotal SpeciesSummary (fun a b =>
        pairLe (rankKey (get_recent_species conn) (get_all_recorded_species conn) a)
          (rankKey (get_recent_species conn) (get_all_recorded_species conn) b) = true) :=
      ⟨fun a b => pairLe_total _ _⟩
    haveI : IsTrans SpeciesSummary (fun a b =>
        pairLe (rankKey (get_recent_species conn) (get_all_recorded_species conn) a)
          (rankKey (get_recent_species conn) (get_all_recorded_species conn) b) = true) :=
      ⟨fun _ _ _ h1 h2 => pairLe_trans h1 h2⟩
    exact List.sorted_insertionSort _ results
  have hlex := hsorted.imp (fun {a b} h => (pairLe_iff _ _).mp h)
  refine ⟨hperm, hlex, hlex.imp ?_⟩
  intro a b h
  rcases h with h | ⟨h, _⟩
  · exact Nat.le_of_lt h
  · exact Nat.le_of_eq h

/-- C3.  `rank_results` returns a permutation of its input (so the
multiset of entries, and of taxon keys, is unchanged), ordered by
ascending priority tier — 1 if the taxon key is in the recent set, 2 if
it is in the ever-recorded set but not recent, 3 otherwise — with ties
broken by ascending case-sensitive scientific name; consequently every
tier-1 entry precedes every tier-2 entry, which precedes every tier-3
entry. -/
theorem rank_results_permutation_and_tier_order (results : List SpeciesSummary)
    (conn : HistoryConn) :
    (rank_results results conn).Perm results ∧
    ((rank_results results conn).map SpeciesSummary.tvk).Perm
      (results.map SpeciesSummary.tvk) ∧
    (∀ s : SpeciesSummary,
      priorityOf (get_recent_species conn) (get_all_recorded_species conn) s =
        if (get_recent_species conn).contains s.tvk then 1
        else if (get_all_recorded_species conn).contains s.tvk then 2
        else 3) ∧
    (rank_results results conn).Pairwise (fun a b =>
      priorityOf (get_recent_species conn) (get_all_recorded_species conn) a <
          priorityOf (get_recent_species conn) (get_all_recorded_species conn) b ∨
        (priorityOf (get_recent_species conn) (get_all_recorded_species conn) a =
            priorityOf (get_recent_species conn) (get_all_recorded_species conn) b ∧
          stringLe a.scientificName b.scientificName = true)) ∧
    (rank_results results conn).Pairwise (fun a b =>
      priorityOf (get_recent_species conn) (get_all_recorded_species conn) a ≤
        priorityOf (get_recent_species conn) (get_all_recorded_species conn) b) := by
  obtain ⟨hperm, hlex, htier⟩ := rank_results_spec results conn
  exact ⟨hperm, hperm.map SpeciesSummary.tvk, fun s => rfl, hlex, htier⟩

/-- C8.  When both history queries raise, the Ranker recovers with empty
sets: every entry gets priority 3 and the output is the input stably
sorted by scientific name alone; the call is total (never surfaces the
failure). -/
theorem rank_results_history_failure (results : List SpeciesSummary) (e1 e2 : String) :
    get_recent_species ⟨Except.error e1, Except.error e2⟩ = [] ∧
    get_all_recorded_species ⟨Except.error e1, Except.error e2⟩ = [] ∧
    (∀ s : SpeciesSummary, priorityOf [] [] s = 3) ∧
    (rank_results results ⟨Except.error e1, Except.error e2⟩).Perm results ∧
    (rank_results results ⟨Except.error e1, Except.error e2⟩).Pairwise
      (fun a b => stringLe a.scientificName b.scientificName = true) := by
  refine ⟨rfl, rfl, fun s => rfl, ?_, ?_⟩
  · exact (rank_results_spec results ⟨Except.error e1, Except.error e2⟩).1
  · have hlex := (rank_results_spec results
      ⟨Except.error e1, Except.error e2⟩).2.1
    refine hlex.imp ?_
    intro a b h
    rcases h with h | ⟨_, h⟩
    · simp [priorityOf, get_recent_species, get_all_recorded_species] at h
    · exact h

/-! ## Concrete datasets for scenarios, counterexamples and witnesses -/

/-- `Turdus merula`, common name `Blackbird` (spec scenario). -/
def gullT1 : Taxon := ⟨"T1", "Turdus merula", "Species"⟩

/-- The unrelated `Black-headed Gull` taxon (spec scenario). -/
def gullT2 : Taxon := ⟨"T2", "Larus ridibundus", "Species"⟩

/-- Dataset of the `search("Black bird", 5)` scenario. -/
def gullDb : UKSIDb :=
  ⟨[gullT1, gullT2], [("T1", "Blackbird"), ("T2", "Black-headed Gull")], [], []⟩

/-- A taxon whose two common names each contain one of the words of
`"Black bird"`, while no single name field contains both. -/
def cexT : Taxon := ⟨"C1", "Xyza", "Species"⟩

/-- Dataset hosting `cexT`. -/
def cexDb : UKSIDb := ⟨[cexT], [("C1", "Black crow"), ("C1", "Sunbird")], [], []⟩

/-- A dataset with a two-node parent cycle `T1 → T2 → T1`. -/
def cycDb : UKSIDb :=
  ⟨[⟨"T1", "Alpha", "Genus"⟩, ⟨"T2", "Beta", "Family"⟩], [], [],
    [("T1", "T2"), ("T2", "T1")]⟩

/-- A result entry whose scientific name sorts first. -/
def sumA : SpeciesSummary := ⟨"A", "Alpha beta", [], "Species"⟩

/-- A result entry whose scientific name sorts last. -/
def sumZ : SpeciesSummary := ⟨"Z", "Zeta gamma", [], "Species"⟩

/-- An observations connection whose two queries both raise. -/
def connErr : HistoryConn := ⟨Except.error "db down", Except.error "db down"⟩

/-- `Rosa canina` at rank `Species` (spec scenario). -/
def rosaSp : Taxon := ⟨"R1", "Rosa canina", "Species"⟩

/-- `Rosa canina` at rank `Subspecies` (spec scenario). -/
def rosaSub : Taxon := ⟨"R2", "Rosa canina", "Subspecies"⟩

/-- A taxon whose only matching name is a synonym. -/
def synT : Taxon := ⟨"S1", "Abcdef", "Species"⟩

/-- Dataset where `"Blackbird"` occurs only in the synonyms table. -/
def synDb : UKSIDb := ⟨[synT], [], [("S1", "Blackbird")], []⟩

/-! ## Searcher and handler theorems -/

/-- `search` unfolded to its pipeline. -/
theorem search_eq (db : UKSIDb) (term : String) (limit : Nat) :
    search db term limit =
      (((dedupByName (candidatesOf db term)).insertionSort (fun t u =>
        tripleLe (orderKey term t) (orderKey term u) = true)).take limit).map
          (toSummary db) :=
  rfl

/-- C9.  A term that is empty or shorter than two characters short-circuits
`search_species` to the empty list; the guard is a plain `return []`, no
exception is raised. -/
theorem search_species_short_term (db : UKSIDb) (term : String) (limit : Nat)
    (obs : Option HistoryConn) (h : term.length < 2) :
    search_species db term limit obs = [] := by
  unfold search_species
  rw [if_pos h]

theorem search_species_short_term_witness :
    ("a" : String).length < 2 ∧ search_species gullDb "a" 5 none = [] :=
  ⟨by decide, search_species_short_term gullDb "a" 5 none (by decide)⟩

/-- C10 counterexample.  `rank_results` sorts the caller's list in place
(`results.sort(...)` on the argument object): after the call on
`[sumZ, sumA]` the caller's list is `[sumA, sumZ]`, not its original
order, so the argument is mutated. -/
theorem rank_results_mutates_caller_list :
    (rankResultsCall [sumZ, sumA] connErr).2 ≠ [sumZ, sumA] ∧
    (rankResultsCall [sumZ, sumA] connErr).2 = [sumA, sumZ] := by
  constructor
  · decide
  · decide

/-- C10 amended.  `rank_results` reads the observation store only through
its two queries and produces a permutation of the input entries (the
transient `_priority` key is deleted before returning, so entry contents
are preserved), but it sorts the caller's list in place: the caller's list
after the call is the returned ranked list, not the original order. -/
theorem rank_results_in_place_permutation (results : List SpeciesSummary)
    (conn : HistoryConn) :
    (rankResultsCall results conn).2 = (rankResultsCall results conn).1 ∧
    ((rankResultsCall results conn).2).Perm results :=
  ⟨rfl, (rank_results_spec results conn).1⟩

/-- C5 counterexample.  `"Blackbird"` is a synonym of taxon `S1` (so every
word of the query is a substring of a synonym), yet neither its scientific
name nor any common name matches, and `search` does not return it: the
fuzzy query never consults the synonyms table. -/
theorem search_misses_synonym_only_match :
    get_synonyms synDb "S1" = ["Blackbird"] ∧
    ((splitWords "Blackbird").all (fun w =>
      (get_synonyms synDb "S1").any (fun s => likeContains s w))) = true ∧
    commonNamesOf synDb "S1" = [] ∧
    ((splitWords "Blackbird").all (fun w =>
      likeContains synT.scientificName w)) = false ∧
    synT ∈ synDb.taxa ∧
    search synDb "Blackbird" 5 = [] := by
  refine ⟨rfl, by decide, rfl, by decide, by decide, by decide⟩

/-- C5 amended.  The fuzzy search matches only scientific and common
names: its output is invariant under arbitrary changes to the synonyms
table (synonyms are exposed through `get_synonyms` but never consulted by
`search`). -/
theorem search_independent_of_synonyms (db : UKSIDb)
    (syns : List (String × String)) (term : String) (limit : Nat) :
    search ⟨db.taxa, db.commonNames, syns, db.hierarchy⟩ term limit =
      search db term limit := by
  cases db
  rfl

/-- C1 counterexample.  For the term `"Black bird"` and taxon `cexT`, every
word of the term is a case-insensitive substring of the scientific name or
of *some* common name (a different one for each word), yet the taxon is
not a match candidate: the SQL `LEFT JOIN` evaluates all word predicates
against one common-name row at a time. -/
theorem match_words_cannot_split_across_common_names :
    2 ≤ ("Black bird" : String).length ∧
    ((splitWords "Black bird").all (fun w =>
      likeContains cexT.scientificName w ||
        (commonNamesOf cexDb cexT.tvk).any (fun cn => likeContains cn w))) = true ∧
    cexT ∈ cexDb.taxa ∧
    matchCandidate cexDb (splitWords "Black bird") cexT = false ∧
    cexT ∉ candidatesOf cexDb "Black bird" := by
  refine ⟨by decide, by decide, by decide, by decide, by decide⟩

/-- C1 amended.  For a term that splits into at least one word, a taxon is
a match candidate (before deduplication and the limit) iff either every
word of the term is a case-insensitive substring of its scientific name,
or there is a *single* common name of the taxon such that every word is a
substring of the scientific name or of that one common name (AND across
words, OR across the two name spaces per word, with one common-name row
serving all words).  A term of length at least 2 that splits into zero
words (whitespace-only) instead makes the query execution raise — there
are no candidates at all; the spec-scenario term `"  "` exhibits this.  In
the spec scenario `search("Black bird", 5)` returns exactly
`Turdus merula` and excludes the Black-headed Gull. -/
theorem match_candidate_single_common_name :
    (∀ (db : UKSIDb) (term : String) (t : Taxon), 2 ≤ term.length →
      splitWords term ≠ [] →
      (t ∈ candidatesOf db term ↔ t ∈ db.taxa ∧
        (((splitWords term).all (fun w => likeContains t.scientificName w)) = true ∨
          ∃ cn ∈ commonNamesOf db t.tvk,
            ((splitWords term).all (fun w =>
              likeContains t.scientificName w || likeContains cn w)) = true))) ∧
    (∀ (db : UKSIDb) (term : String) (limit : Nat), splitWords term = [] →
      searchExec db term limit = Except.error "sqlite3.OperationalError") ∧
    2 ≤ ("  " : String).length ∧ splitWords "  " = [] ∧
    searchExec gullDb "Black bird" 5 =
      Except.ok [⟨"T1", "Turdus merula", ["Blackbird"], "Species"⟩] ∧
    search gullDb "Black bird" 5 =
      [⟨"T1", "Turdus merula", ["Blackbird"], "Species"⟩] := by
  refine ⟨?_, ?_, by decide, by decide, ?_, by decide⟩
  · intro db term t _ _
    rw [candidatesOf, List.mem_filter]
    constructor
    · rintro ⟨ht, hm⟩
      refine ⟨ht, ?_⟩
      rw [matchCandidate] at hm
      rcases hcns : commonNamesOf db t.tvk with _ | ⟨c, cs⟩
      · rw [hcns] at hm
        exact Or.inl hm
      · rw [hcns] at hm
        rcases List.any_eq_true.mp hm with ⟨cn, hcn, hall⟩
        exact Or.inr ⟨cn, hcns ▸ hcn, hall⟩
    · rintro ⟨ht, hm⟩
      refine ⟨ht, ?_⟩
      rw [matchCandidate]
      rcases hcns : commonNamesOf db t.tvk with _ | ⟨c, cs⟩
      · rcases hm with hm | ⟨cn, hcn, _⟩
        · exact hm
        · rw [hcns] at hcn
          exact absurd hcn (List.not_mem_nil cn)
      · rcases hm with hm | ⟨cn, hcn, hall⟩
        · refine List.any_eq_true.mpr ⟨c, List.mem_cons_self c cs, ?_⟩
          rw [List.all_eq_true] at hm ⊢
          intro w hw
          rw [Bool.or_eq_true]
          exact Or.inl (hm w hw)
        · rw [hcns] at hcn
          exact List.any_eq_true.mpr ⟨cn, hcn, hall⟩
  · intro db term limit hw
    rw [searchExec, if_pos hw]
  · rw [searchExec, if_neg (by decide : ¬ splitWords "Black bird" = [])]
    exact congrArg Except.ok (by decide)

theorem match_candidate_single_common_name_witness :
    (gullT1 ∈ candidatesOf gullDb "Black bird" ↔ gullT1 ∈ gullDb.taxa ∧
      (((splitWords "Black bird").all (fun w =>
          likeContains gullT1.scientificName w)) = true ∨
        ∃ cn ∈ commonNamesOf gullDb gullT1.tvk,
          ((splitWords "Black bird").all (fun w =>
            likeContains gullT1.scientificName w || likeContains cn w)) = true)) ∧
    searchExec gullDb "  " 5 = Except.error "sqlite3.OperationalError" :=
  ⟨match_candidate_single_common_name.1 gullDb "Black bird" gullT1 (by decide)
      (by decide),
    match_candidate_single_common_name.2.1 gullDb "  " 5 (by decide)⟩

/-- Any survivor of the dedup filter is minimal for the window key among
all candidates sharing its scientific name. -/
theorem dedupByName_min (cands : List Taxon) (t : Taxon)
    (ht : t ∈ dedupByName cands) :
    ∀ u ∈ cands, u.scientificName = t.scientificName → dedupKeyLe t u = true := by
  intro u hu hsci
  rw [dedupByName, List.mem_filter] at ht
  have hall := List.all_eq_true.mp ht.2 u hu
  rw [Bool.or_eq_true, bne_iff_ne] at hall
  rcases hall with hne | hle
  · exact absurd hsci hne
  · exact hle

/-- Every scientific name present among the candidates has a surviving
representative after dedup. -/
theorem dedupByName_exists_rep (cands : List Taxon) (u : Taxon) (hu : u ∈ cands) :
    ∃ t, t ∈ dedupByName cands ∧ t.scientificName = u.scientificName := by
  have hgrp : u ∈ cands.filter (fun v => v.scientificName == u.scientificName) :=
    List.mem_filter.mpr ⟨hu, by simp⟩
  obtain ⟨m, hm, hmin⟩ := exists_min_of_ne_nil dedupKeyLe
    (fun a b => tripleLe_total (dedupKey a) (dedupKey b))
    (fun a b c h1 h2 => tripleLe_trans h1 h2)
    (cands.filter (fun v => v.scientificName == u.scientificName))
    (List.ne_nil_of_mem hgrp)
  have hmc := List.mem_filter.mp hm
  have hmsci : m.scientificName = u.scientificName := by
    simpa using hmc.2
  refine ⟨m, List.mem_filter.mpr ⟨hmc.1, ?_⟩, hmsci⟩
  rw [List.all_eq_true]
  intro v hv
  rw [Bool.or_eq_true, bne_iff_ne]
  by_cases hvs : v.scientificName = m.scientificName
  · refine Or.inr (hmin v (List.mem_filter.mpr ⟨hv, ?_⟩))
    simp [hvs, hmsci]
  · exact Or.inl hvs

/-- C6.  The representative kept by the dedup window is minimal for the
tie-break key `(tier, LENGTH(scientific_name), tvk)` among all candidates
sharing its scientific name, one representative survives per scientific
name present, and in the `Rosa canina` scenario the `Species`-ranked taxon
(tier 1) is the one kept over the `Subspecies`-ranked one (tier 2). -/
theorem dedup_keeps_minimal_representative :
    (∀ (cands : List Taxon) (t : Taxon), t ∈ dedupByName cands →
      ∀ u ∈ cands, u.scientificName = t.scientificName → dedupKeyLe t u = true) ∧
    (∀ (cands : List Taxon) (u : Taxon), u ∈ cands →
      ∃ t, t ∈ dedupByName cands ∧ t.scientificName = u.scientificName) ∧
    dedupByName [rosaSub, rosaSp] = [rosaSp] ∧
    dedupTier rosaSp = 1 ∧ dedupTier rosaSub = 2 :=
  ⟨dedupByName_min, dedupByName_exists_rep, by decide, by decide, by decide⟩

theorem dedup_keeps_minimal_representative_witness :
    rosaSp ∈ dedupByName [rosaSub, rosaSp] ∧
    rosaSub ∈ [rosaSub, rosaSp] ∧
    rosaSub.scientificName = rosaSp.scientificName ∧
    dedupKeyLe rosaSp rosaSub = true :=
  ⟨by decide, by decide, by decide,
    dedup_keeps_minimal_representative.1 [rosaSub, rosaSp] rosaSp (by decide)
      rosaSub (by decide) (by decide)⟩

/-- C2.  Under the `taxa` primary-key invariant (pairwise distinct tvks),
no two entries of a `search` result share a scientific name: the window
keys of two equally named survivors would be mutually `≤`, forcing equal
tvks. -/
theorem search_no_duplicate_scientific_names (db : UKSIDb) (term : String)
    (limit : Nat) (htvk : (db.taxa.map Taxon.tvk).Nodup) :
    (search db term limit).Pairwise
      (fun a b => a.scientificName ≠ b.scientificName) := by
  have hsub1 : List.Sublist (candidatesOf db term) db.taxa := by
    rw [candidatesOf]
    exact List.filter_sublist _
  have hsub2 : List.Sublist (dedupByName (candidatesOf db term)) (candidatesOf db term) := by
    rw [dedupByName]
    exact List.filter_sublist _
  have hnd : ((dedupByName (candidatesOf db term)).map Taxon.tvk).Nodup :=
    htvk.sublist ((hsub2.trans hsub1).map Taxon.tvk)
  have hpw_tvk : (dedupByName (candidatesOf db term)).Pairwise
      (fun a b => a.tvk ≠ b.tvk) := List.pairwise_map.mp hnd
  have hpw_sci : (dedupByName (candidatesOf db term)).Pairwise
      (fun a b => a.scientificName ≠ b.scientificName) := by
    refine hpw_tvk.imp_of_mem ?_
    intro a b ha hb hne hsci
    have hamin := dedupByName_min (candidatesOf db term) a ha b
      (hsub2.mem hb) hsci.symm
    have hbmin := dedupByName_min (candidatesOf db term) b hb a
      (hsub2.mem ha) hsci
    have hkey := tripleLe_antisymm hamin hbmin
    have : a.tvk = b.tvk := congrArg (fun p => p.2.2) hkey
    exact hne this
  have hsorted : ((dedupByName (candidatesOf db term)).insertionSort (fun t u =>
      tripleLe (orderKey term t) (orderKey term u) = true)).Pairwise
      (fun a b => a.scientificName ≠ b.scientificName) :=
    ((List.perm_insertionSort _ _).pairwise_iff (fun h => h.symm)).mpr hpw_sci
  have htake := hsorted.sublist (List.take_sublist limit _)
  rw [search_eq]
  exact List.pairwise_map.mpr (htake.imp (fun h => h))

theorem search_no_duplicate_scientific_names_witness :
    (gullDb.taxa.map Taxon.tvk).Nodup ∧
    (search gullDb "Black bird" 5).Pairwise
      (fun a b => a.scientificName ≠ b.scientificName) :=
  ⟨by decide, search_no_duplicate_scientific_names gullDb "Black bird" 5 (by decide)⟩

/-! ## Hierarchy resolver theorems -/

/-- The walk performs at most `fuel` iterations. -/
theorem buildTaxonomySteps_le_fuel (db : UKSIDb) :
    ∀ (fuel : Nat) (cur : Option String) (visited : List String) (depth : Nat),
      buildTaxonomySteps db fuel cur visited depth ≤ fuel := by
  intro fuel
  induction fuel with
  | zero =>
    intro cur visited depth
    cases cur <;> simp [buildTaxonomySteps]
  | succ n ih =>
    intro cur visited depth
    cases cur with
    | none => simp [buildTaxonomySteps]
    | some k =>
      rw [buildTaxonomySteps]
      split
      · omega
      · split
        · omega
        · split
          · omega
          · rename_i sci rank parent heq
            split
            · split
              · have := ih parent (k :: visited) (depth + 1)
                omega
              · omega
            · have := ih parent (k :: visited) (depth + 1)
              omega

/-- If the current key was already visited, the loop stops at once and
returns the accumulator unchanged. -/
theorem buildTaxonomyLoop_cycle_guard (db : UKSIDb) (fuel : Nat) (k : String)
    (visited : List String) (depth : Nat) (acc : TaxonomyAcc)
    (hvis : k ∈ visited) :
    buildTaxonomyLoop db fuel (some k) visited depth acc = acc := by
  cases fuel with
  | zero => rfl
  | succ n =>
    rw [buildTaxonomyLoop]
    by_cases hk : k = ""
    · rw [if_pos hk]
    · rw [if_neg hk, if_pos hvis]

/-- C4.  The upward walk of `_build_taxonomy` terminates after at most 20
iterations for every dataset (cycles and dangling parents included), stops
immediately — returning the taxonomy accumulated so far, without error —
when the next key was already visited, and on the concrete two-node cycle
`T1 → T2 → T1` it stops after 2 iterations with the partial taxonomy
`{genus ↦ Alpha, family ↦ Beta}`. -/
theorem build_taxonomy_bounded_and_cycle_safe :
    (∀ (db : UKSIDb) (tvk : String),
      buildTaxonomySteps db 20 (some tvk) [] 0 ≤ 20) ∧
    (∀ (db : UKSIDb) (fuel : Nat) (k : String) (visited : List String)
        (depth : Nat) (acc : TaxonomyAcc), k ∈ visited →
      buildTaxonomyLoop db fuel (some k) visited depth acc = acc) ∧
    build_taxonomy cycDb "T1" =
      ⟨[("genus", "Alpha"), ("family", "Beta")], some "T2"⟩ ∧
    buildTaxonomySteps cycDb 20 (some "T1") [] 0 = 2 :=
  ⟨fun db tvk => buildTaxonomySteps_le_fuel db 20 (some tvk) [] 0,
    fun db fuel k visited depth acc hvis =>
      buildTaxonomyLoop_cycle_guard db fuel k visited depth acc hvis,
    by decide, by decide⟩

theorem build_taxonomy_bounded_and_cycle_safe_witness :
    buildTaxonomySteps cycDb 20 (some "T1") [] 0 ≤ 20 ∧
    ("T1" : String) ∈ ["T1", "T0"] ∧
    buildTaxonomyLoop cycDb 7 (some "T1") ["T1", "T0"] 3 ⟨[("genus", "Alpha")], none⟩ =
      ⟨[("genus", "Alpha")], none⟩ :=
  ⟨build_taxonomy_bounded_and_cycle_safe.1 cycDb "T1", by decide,
    build_taxonomy_bounded_and_cycle_safe.2.1 cycDb 7 "T1" ["T1", "T0"] 3
      ⟨[("genus", "Alpha")], none⟩ (by decide)⟩

/-- `lookupLevel` after appending one pair at the end. -/
theorem lookupLevel_append_one (L : List (String × String)) (rl s r : String) :
    lookupLevel (L ++ [(rl, s)]) r =
      match lookupLevel L r with
      | some v => some v
      | none => if rl = r then some s else none := by
  rw [lookupLevel, List.find?_append]
  cases hf : L.find? (fun p => p.1 == r) with
  | some p => simp [lookupLevel, hf]
  | none =>
    by_cases hr : rl = r
    · simp [lookupLevel, hf, hr]
    · simp [lookupLevel, hf, hr]

/-- `lookupLevel` through `recordLevel`: existing entries persist, and a
new entry appears exactly for an unfilled six-rank slot. -/
theorem lookupLevel_recordLevel (L : List (String × String)) (rl s r : String) :
    lookupLevel (recordLevel L rl s) r =
      match lookupLevel L r with
      | some v => some v
      | none =>
        if rl ∈ sixRanks ∧ lookupLevel L rl = none ∧ rl = r then some s
        else none := by
  rw [recordLevel]
  by_cases hc : rl ∈ sixRanks ∧ lookupLevel L rl = none
  · rw [if_pos hc, lookupLevel_append_one]
    cases hf : lookupLevel L r with
    | some v => rfl
    | none =>
      by_cases hr : rl = r
      · subst hr
        simp [hc.1, hc.2]
      · simp [hr]
  · rw [if_neg hc]
    cases hf : lookupLevel L r with
    | some v => rfl
    | none =>
      rw [if_neg]
      rintro ⟨h1, h2, _⟩
      exact hc ⟨h1, h2⟩

/-- `recordLevel` keeps the level keys duplicate-free. -/
theorem recordLevel_keys_nodup (L : List (String × String)) (rl s : String)
    (h : (L.map Prod.fst).Nodup) : ((recordLevel L rl s).map Prod.fst).Nodup := by
  rw [recordLevel]
  by_cases hc : rl ∈ sixRanks ∧ lookupLevel L rl = none
  · rw [if_pos hc, List.map_append, List.nodup_append]
    refine ⟨h, by simp, ?_⟩
    intro x hx hx1
    simp only [List.map_cons, List.map_nil, List.mem_singleton] at hx1
    subst hx1
    have hnone : L.find? (fun q => q.1 == x) = none := by
      have h2 := hc.2
      rw [lookupLevel] at h2
      exact Option.map_eq_none'.mp h2
    have hall := List.find?_eq_none.mp hnone
    rcases List.mem_map.mp hx with ⟨p, hp, hfst⟩
    exact hall p hp (by simp [hfst])
  · rw [if_neg hc]
    exact h

/-- One full iteration of the walk when the row is found and the guards
pass. -/
theorem buildTaxonomyLoop_step (db : UKSIDb) (n : Nat) (k : String)
    (visited : List String) (depth : Nat) (acc : TaxonomyAcc)
    (sci rank : String) (parent : Option String)
    (hk : ¬ k = "") (hvis : k ∉ visited)
    (hrow : taxonRow db k = some (sci, rank, parent)) :
    buildTaxonomyLoop db (n + 1) (some k) visited depth acc =
      (if depth = 0 then
        if pyTruthy parent then
          buildTaxonomyLoop db n parent (k :: visited) (depth + 1)
            ⟨recordLevel acc.levels (lowerStr rank) sci, parent⟩
        else ⟨recordLevel acc.levels (lowerStr rank) sci, acc.parentTvk⟩
      else buildTaxonomyLoop db n parent (k :: visited) (depth + 1)
        ⟨recordLevel acc.levels (lowerStr rank) sci, acc.parentTvk⟩) := by
  rw [buildTaxonomyLoop, if_neg hk, if_neg hvis, hrow]

/-- One full visit step of the walk-order trace. -/
theorem taxVisits_step (db : UKSIDb) (n : Nat) (k : String)
    (visited : List String) (depth : Nat)
    (sci rank : String) (parent : Option String)
    (hk : ¬ k = "") (hvis : k ∉ visited)
    (hrow : taxonRow db k = some (sci, rank, parent)) :
    taxVisits db (n + 1) (some k) visited depth =
      (lowerStr rank, sci) ::
        (if depth = 0 then
          if pyTruthy parent then taxVisits db n parent (k :: visited) (depth + 1)
          else []
        else taxVisits db n parent (k :: visited) (depth + 1)) := by
  rw [taxVisits, if_neg hk, if_neg hvis, hrow]

/-- Composition step: record one level, then continue with a tail whose
levels satisfy the first-occurrence specification for the remaining
visits. -/
theorem recordLevel_spec_step (L : List (String × String)) (rlow sci : String)
    (out : TaxonomyAcc) (rest : List (String × String))
    (hnodup : ((recordLevel L rlow sci).map Prod.fst).Nodup →
      (out.levels.map Prod.fst).Nodup)
    (hsome : ∀ r v, lookupLevel (recordLevel L rlow sci) r = some v →
      lookupLevel out.levels r = some v)
    (hnone : ∀ r, lookupLevel (recordLevel L rlow sci) r = none →
      lookupLevel out.levels r =
        if r ∈ sixRanks then (rest.find? (fun p => p.1 == r)).map (·.2) else none) :
    ((L.map Prod.fst).Nodup → (out.levels.map Prod.fst).Nodup) ∧
    (∀ r v, lookupLevel L r = some v → lookupLevel out.levels r = some v) ∧
    (∀ r, lookupLevel L r = none →
      lookupLevel out.levels r =
        if r ∈ sixRanks then
          (((rlow, sci) :: rest).find? (fun p => p.1 == r)).map (·.2)
        else none) := by
  refine ⟨fun h => hnodup (recordLevel_keys_nodup L rlow sci h), ?_, ?_⟩
  · intro r v h
    refine hsome r v ?_
    rw [lookupLevel_recordLevel, h]
  · intro r h
    have hrec := lookupLevel_recordLevel L rlow sci r
    rw [h] at hrec
    by_cases hcond : rlow ∈ sixRanks ∧ lookupLevel L rlow = none ∧ rlow = r
    · rw [if_pos hcond] at hrec
      have hout := hsome r sci hrec
      rw [hout, if_pos (hcond.2.2 ▸ hcond.1)]
      have : ((rlow, sci) :: rest).find? (fun p => p.1 == r) = some (rlow, sci) := by
        simp [hcond.2.2]
      rw [this]
      rfl
    · rw [if_neg hcond] at hrec
      have hout := hnone r hrec
      by_cases hr : r ∈ sixRanks
      · have hne : rlow ≠ r := by
          intro he
          exact hcond ⟨he ▸ hr, he ▸ h, he⟩
        rw [hout, if_pos hr, if_pos hr]
        have : ((rlow, sci) :: rest).find? (fun p => p.1 == r) =
            rest.find? (fun p => p.1 == r) := by
          simp [hne]
        rw [this]
      · rw [hout, if_neg hr, if_neg hr]

/-- First-occurrence specification of the walk: levels recorded before the
walk persist, the walk never duplicates a level key, and a level that was
unfilled on entry ends up holding the scientific name of the *first*
visited taxon whose lowered rank equals it. -/
theorem buildTaxonomyLoop_levels_spec (db : UKSIDb) :
    ∀ (fuel : Nat) (cur : Option String) (visited : List String) (depth : Nat)
      (acc : TaxonomyAcc),
      ((acc.levels.map Prod.fst).Nodup →
        ((buildTaxonomyLoop db fuel cur visited depth acc).levels.map Prod.fst).Nodup) ∧
      (∀ r v, lookupLevel acc.levels r = some v →
        lookupLevel (buildTaxonomyLoop db fuel cur visited depth acc).levels r = some v) ∧
      (∀ r, lookupLevel acc.levels r = none →
        lookupLevel (buildTaxonomyLoop db fuel cur visited depth acc).levels r =
          if r ∈ sixRanks then
            ((taxVisits db fuel cur visited depth).find? (fun p => p.1 == r)).map (·.2)
          else none) := by
  intro fuel
  induction fuel with
  | zero =>
    intro cur visited depth acc
    exact ⟨fun h => h, fun r v h => h, fun r h => by
      cases cur <;> simp [buildTaxonomyLoop, taxVisits, h]⟩
  | succ n ih =>
    intro cur visited depth acc
    cases cur with
    | none =>
      exact ⟨fun h => h, fun r v h => h, fun r h => by
        simp [buildTaxonomyLoop, taxVisits, h]⟩
    | some k =>
      by_cases hk : k = ""
      · have hl : buildTaxonomyLoop db (n + 1) (some k) visited depth acc = acc := by
          rw [buildTaxonomyLoop, if_pos hk]
        have hv : taxVisits db (n + 1) (some k) visited depth = [] := by
          rw [taxVisits, if_pos hk]
        rw [hl, hv]
        exact ⟨fun h => h, fun r v h => h, fun r h => by simp [h]⟩
      · by_cases hvis : k ∈ visited
        · have hl := buildTaxonomyLoop_cycle_guard db (n + 1) k visited depth acc hvis
          have hv : taxVisits db (n + 1) (some k) visited depth = [] := by
            rw [taxVisits, if_neg hk, if_pos hvis]
          rw [hl, hv]
          exact ⟨fun h => h, fun r v h => h, fun r h => by simp [h]⟩
        · cases hrow : taxonRow db k with
          | none =>
            have hl : buildTaxonomyLoop db (n + 1) (some k) visited depth acc = acc := by
              rw [buildTaxonomyLoop, if_neg hk, if_neg hvis, hrow]
            have hv : taxVisits db (n + 1) (some k) visited depth = [] := by
              rw [taxVisits, if_neg hk, if_neg hvis, hrow]
            rw [hl, hv]
            exact ⟨fun h => h, fun r v h => h, fun r h => by simp [h]⟩
          | some triple =>
            obtain ⟨sci, rank, parent⟩ := triple
            rw [buildTaxonomyLoop_step db n k visited depth acc sci rank parent hk hvis hrow,
              taxVisits_step db n k visited depth sci rank parent hk hvis hrow]
            by_cases hd : depth = 0
            · by_cases hp : pyTruthy parent
              · simp only [if_pos hd, if_pos hp]
                obtain ⟨h1, h2, h3⟩ := ih parent (k :: visited) (depth + 1)
                  ⟨recordLevel acc.levels (lowerStr rank) sci, parent⟩
                exact recordLevel_spec_step acc.levels (lowerStr rank) sci _ _ h1 h2 h3
              · simp only [if_pos hd, if_neg hp]
                exact recordLevel_spec_step acc.levels (lowerStr rank) sci
                  ⟨recordLevel acc.levels (lowerStr rank) sci, acc.parentTvk⟩ []
                  (fun h => h) (fun r v h => h) (fun r h => by simp [h])
            · simp only [if_neg hd]
              obtain ⟨h1, h2, h3⟩ := ih parent (k :: visited) (depth + 1)
                ⟨recordLevel acc.levels (lowerStr rank) sci, acc.parentTvk⟩
              exact recordLevel_spec_step acc.levels (lowerStr rank) sci _ _ h1 h2 h3

/-- C7.  The taxonomy map built by the walk holds at most one scientific
name per rank level (its keys are duplicate-free), and for each of the six
levels the recorded value is the scientific name of the first taxon in
walk order whose rank is that level — the nearest such ancestor, never
overwritten by a farther one. -/
theorem build_taxonomy_first_occurrence (db : UKSIDb) (tvk : String) :
    ((build_taxonomy db tvk).levels.map Prod.fst).Nodup ∧
    ∀ r ∈ sixRanks,
      lookupLevel (build_taxonomy db tvk).levels r =
        ((taxVisits db 20 (some tvk) [] 0).find? (fun p => p.1 == r)).map (·.2) := by
  obtain ⟨h1, _, h3⟩ := buildTaxonomyLoop_levels_spec db 20 (some tvk) [] 0 ⟨[], none⟩
  refine ⟨h1 (by simp), ?_⟩
  intro r hr
  have h := h3 r rfl
  rw [build_taxonomy]
  rw [h, if_pos hr]

theorem build_taxonomy_first_occurrence_witness :
    ("genus" : String) ∈ sixRanks ∧
    lookupLevel (build_taxonomy cycDb "T1").levels "genus" =
      ((taxVisits cycDb 20 (some "T1") [] 0).find? (fun p => p.1 == "genus")).map (·.2) ∧
    lookupLevel (build_taxonomy cycDb "T1").levels "genus" = some "Alpha" :=
  ⟨by decide,
    (build_taxonomy_first_occurrence cycDb "T1").2 "genus" (by decide),
    by decide⟩

end Observatum
